import Mathlib

/-!
# Colour tracking (`src/colortracking.cpp`)

A shallow embedding of the colour tracker: the thresholding of a frame into a
mask (`applyThreshold`), the estimation of the barycentre of the mask by the
method of moments (`estimatePosition`) and the acquisition loop (`track`).

The OpenCV functions called by the program are library code.  They are
embedded after the OpenCV 2.x reference manual (the release line that ships
`opencv2/opencv.hpp`), except for the colour conversion and the rasterisation
of the marker, which are parameters of the development.

Numbers.  The moments of an 8 bit mask are sums of natural numbers; OpenCV
stores them in `double`s, which represent every integer below `2 ^ 53`
exactly, and for such values the quotient of two of them converted to `int`
is the truncated quotient.  They are embedded as `Nat` with `Nat` division.
-/

namespace ColorTracking

/-! ## Images -/

/-- An image header with its pixel data: `pix x y` is the pixel of column `x`
and row `y`.  Only the coordinates `x < width`, `y < height` belong to the
image. -/
structure IplImage (α : Type) where
  width : Nat
  height : Nat
  pix : Nat → Nat → α

/-- A pixel of a three channel 8 bit image, channel 0 first. -/
abbrev Pixel3 := Nat × Nat × Nat

/-- The first three components of a `CvScalar`. -/
abbrev CvScalar := Nat × Nat × Nat

/-- A point of the drawing functions, `(x, y)`. -/
abbrev CvPoint := Int × Int

/-- The constant `AREA_THRESHOLD` of the program. -/
def AREA_THRESHOLD : Nat := 200

/-! ## Moments -/

/-- The moments up to order one, the only ones the program reads. -/
structure CvMoments where
  m00 : Nat
  m10 : Nat
  m01 : Nat
deriving DecidableEq, Repr

/-- The weight of a pixel in `cvMoments`: with `binary` set every non-zero
pixel counts for 1, otherwise the pixel counts for its value. -/
def pixelWeight (binary : Bool) (v : Nat) : Nat :=
  if binary then (if v ≠ 0 then 1 else 0) else v

/-- The sums `(Σ p, Σ x * p)` over the first `n` pixels of one row. -/
def rowMoments (binary : Bool) (row : Nat → Nat) : Nat → Nat × Nat
  | 0 => (0, 0)
  | x + 1 =>
    let acc := rowMoments binary row x
    let p := pixelWeight binary (row x)
    (acc.1 + p, acc.2 + x * p)

/-- The accumulation of `cvMoments` over the first `n` rows of the image. -/
def momentsUpTo (binary : Bool) (image : IplImage Nat) : Nat → CvMoments
  | 0 => ⟨0, 0, 0⟩
  | y + 1 =>
    let acc := momentsUpTo binary image y
    let r := rowMoments binary (fun x => image.pix x y) image.width
    ⟨acc.m00 + r.1, acc.m10 + r.2, acc.m01 + y * r.1⟩

/-- The library function `cvMoments(image, &moments, binary)`, restricted to
the moments of order at most one. -/
def cvMoments (image : IplImage Nat) (binary : Bool) : CvMoments :=
  momentsUpTo binary image image.height

/-- The body of `estimatePosition` for an area threshold `areaThreshold`;
`_p` holds the values of `*pX` and `*pY` before the call, the result their
values after it. -/
def estimatePositionAt (areaThreshold : Nat) (image : IplImage Nat)
    (_p : Int × Int) : Int × Int :=
  let moments := cvMoments image true
  let moment10 := moments.m10
  let moment01 := moments.m01
  let area := moments.m00
  if area ≥ areaThreshold then
    (((moment10 / area : Nat) : Int), ((moment01 / area : Nat) : Int))
  else
    (-1, -1)

/-- The function `estimatePosition(image, pX, pY)` of the program. -/
def estimatePosition (image : IplImage Nat) (p : Int × Int) : Int × Int :=
  estimatePositionAt AREA_THRESHOLD image p

/-! ### The moments as the specification words them -/

/-- The coordinates of the pixels of the mask that are "in range", that is
non-zero. -/
def inRangePixels (image : IplImage Nat) : Finset (Nat × Nat) :=
  (Finset.range image.width ×ˢ Finset.range image.height).filter
    (fun q => image.pix q.1 q.2 ≠ 0)

/-- The number of "in range" pixels. -/
def specM00 (image : IplImage Nat) : Nat := (inRangePixels image).card

/-- The sum of the x coordinates of the "in range" pixels. -/
def specM10 (image : IplImage Nat) : Nat := ∑ q ∈ inRangePixels image, q.1

/-- The sum of the y coordinates of the "in range" pixels. -/
def specM01 (image : IplImage Nat) : Nat := ∑ q ∈ inRangePixels image, q.2

/-! ## Thresholding -/

/-- The part of OpenCV that the development leaves open: the conversion of
one 8 bit BGR pixel to HSV done by `cvCvtColor(_, _, CV_BGR2HSV)` and the
rasterisation `cvLine(img, pt1, pt2, color, thickness)`. -/
structure OpenCV where
  bgr2hsv : Pixel3 → Pixel3
  cvLine : IplImage Pixel3 → CvPoint → CvPoint → CvScalar → Nat → IplImage Pixel3

/-- The library function `cvCreateImage(size, 8, _)`.  The content of a new
image is unspecified; the program overwrites every pixel before reading it. -/
def cvCreateImage {α : Type} (width height : Nat) (fill : α) : IplImage α :=
  ⟨width, height, fun _ _ => fill⟩

/-- The library function `cvCvtColor(src, dst, code)` into a fresh image of
the size of `src`: the conversion `code` applied to every pixel. -/
def cvCvtColor (code : Pixel3 → Pixel3) (src : IplImage Pixel3) : IplImage Pixel3 :=
  { src with pix := fun x y => code (src.pix x y) }

/-- The test of `cvInRangeS` on one pixel of a three channel image: every
channel lies between the lower and the upper bound, both included. -/
def inRangeS (lower upper : CvScalar) (v : Pixel3) : Bool :=
  decide (lower.1 ≤ v.1 ∧ v.1 ≤ upper.1) &&
  decide (lower.2.1 ≤ v.2.1 ∧ v.2.1 ≤ upper.2.1) &&
  decide (lower.2.2 ≤ v.2.2 ∧ v.2.2 ≤ upper.2.2)

/-- The library function `cvInRangeS(src, lower, upper, dst)`: `dst` must have
the size of `src` (OpenCV raises an error otherwise, `none`) and receives 255
where the pixel of `src` passes the test and 0 elsewhere. -/
def cvInRangeS (src : IplImage Pixel3) (lower upper : CvScalar) (dst : IplImage Nat) :
    Option (IplImage Nat) :=
  if dst.width = src.width ∧ dst.height = src.height then
    some { dst with pix := fun x y => if inRangeS lower upper (src.pix x y) then 255 else 0 }
  else
    none

/-- The function `applyThreshold(src, dst)` of the program; the result is the
content of `dst` after the call. -/
def applyThreshold (cv : OpenCV) (src : IplImage Pixel3) (dst : IplImage Nat) :
    Option (IplImage Nat) :=
  let hsvImage := cvCvtColor cv.bgr2hsv src
  cvInRangeS hsvImage (20, 100, 100) (30, 255, 255) dst

/-! ## The tracking loop -/

/-- The function `keepTracking()` of the program, given the value returned by
its call `cvWaitKey(10)`. -/
def keepTracking (key : Int) : Bool := key == -1

/-- The library function `cvFlip(src, dst, 1)`: the mirror image about the
vertical axis. -/
def cvFlip {α : Type} (src : IplImage α) : IplImage α :=
  { src with pix := fun x y => src.pix (src.width - 1 - x) y }

/-- The calls that `track` makes on a frame, with their arguments. -/
inductive Event where
  | applyThreshold (src : IplImage Pixel3)
  | estimatePosition (image : IplImage Nat)
  | cvLine (pt1 pt2 : CvPoint)
  | showThreshold (image : IplImage Nat)
  | showVideo (image : IplImage Pixel3)

/-- The frame given to `applyThreshold`, for an event that is such a call. -/
def Event.thresholded : Event → Option (IplImage Pixel3)
  | .applyThreshold src => some src
  | _ => none

/-- The mask given to `estimatePosition`, for an event that is such a call. -/
def Event.estimated : Event → Option (IplImage Nat)
  | .estimatePosition image => some image
  | _ => none

/-- The end points of the marker, for an event that is a call of `cvLine`. -/
def Event.marker : Event → Option (CvPoint × CvPoint)
  | .cvLine pt1 pt2 => some (pt1, pt2)
  | _ => none

/-- The frame given to `cvShowImage("Video", _)`, for such an event. -/
def Event.video : Event → Option (IplImage Pixel3)
  | .showVideo image => some image
  | _ => none

/-- One pass through the body of the loop of `track`, from the frame returned
by `cvQueryFrame` on: the new values of `(posX, posY)` and the calls made, or
`none` when OpenCV raises an error. -/
def trackBody (cv : OpenCV) (queried : IplImage Pixel3) (pos : Int × Int) :
    Option ((Int × Int) × List Event) :=
  let frame := cvFlip queried
  let threshed := cvCreateImage frame.width frame.height 0
  match applyThreshold cv frame threshed with
  | none => none
  | some threshed =>
    let pos := estimatePosition threshed pos
    let drawn : IplImage Pixel3 × List Event :=
      if pos.1 > 0 ∧ pos.2 > 0 then
        (cv.cvLine frame pos pos (0, 255, 255) 5, [Event.cvLine pos pos])
      else
        (frame, [])
    some (pos, [Event.applyThreshold frame, Event.estimatePosition threshed] ++ drawn.2 ++
      [Event.showThreshold threshed, Event.showVideo drawn.1])

/-- How a run of `track` stands after a bounded number of passes: it has
returned, OpenCV has raised an error, or the loop is still running. -/
inductive Outcome where
  | returned (trace : List Event)
  | cvError (trace : List Event)
  | running (trace : List Event)

/-- The calls made so far. -/
def Outcome.trace : Outcome → List Event
  | .returned t => t
  | .cvError t => t
  | .running t => t

/-- The loop of `track`.  `waitKey i` is the value of the call of
`cvWaitKey(10)` in pass `i` and `frames i` the answer of the call of
`cvQueryFrame` in pass `i` (`none` for `NULL`); `fuel` bounds the number of
passes that are run. -/
def trackLoop (cv : OpenCV) (waitKey : Nat → Int) (frames : Nat → Option (IplImage Pixel3)) :
    Nat → Nat → Int × Int → List Event → Outcome
  | 0, _, _, trace => .running trace
  | fuel + 1, i, pos, trace =>
    if keepTracking (waitKey i) then
      match frames i with
      | none => .returned trace
      | some frame =>
        match trackBody cv frame pos with
        | none => .cvError trace
        | some (pos, events) => trackLoop cv waitKey frames fuel (i + 1) pos (trace ++ events)
    else
      .returned trace

/-- The function `track(capture)` of the program, run for at most `fuel`
passes of its loop. -/
def track (cv : OpenCV) (waitKey : Nat → Int) (frames : Nat → Option (IplImage Pixel3))
    (fuel : Nat) : Outcome :=
  trackLoop cv waitKey frames fuel 0 (-1, -1) []

/-- The mask that `applyThreshold` computes for `frame`. -/
def thresholdOf (cv : OpenCV) (frame : IplImage Pixel3) : IplImage Nat :=
  ⟨frame.width, frame.height, fun x y =>
    if inRangeS (20, 100, 100) (30, 255, 255) (cv.bgr2hsv (frame.pix x y)) then 255 else 0⟩

/-- The position that a pass of the loop computes for the frame `queried`. -/
def positionOf (cv : OpenCV) (queried : IplImage Pixel3) : Int × Int :=
  estimatePosition (thresholdOf cv (cvFlip queried)) (-1, -1)

/-- The calls of the pass of the loop that handles the frame `queried`. -/
def cycleEvents (cv : OpenCV) (queried : IplImage Pixel3) : List Event :=
  let frame := cvFlip queried
  let threshed := thresholdOf cv frame
  let pos := positionOf cv queried
  [Event.applyThreshold frame, Event.estimatePosition threshed] ++
    (if pos.1 > 0 ∧ pos.2 > 0 then [Event.cvLine pos pos] else []) ++
    [Event.showThreshold threshed,
      Event.showVideo (if pos.1 > 0 ∧ pos.2 > 0 then cv.cvLine frame pos pos (0, 255, 255) 5
        else frame)]

/-- The calls of the passes that handle the first `n` answers of the frame
source. -/
def traceUpTo (cv : OpenCV) (frames : Nat → Option (IplImage Pixel3)) : Nat → List Event
  | 0 => []
  | n + 1 =>
    traceUpTo cv frames n ++
      (match frames n with
       | some queried => cycleEvents cv queried
       | none => [])

/-! ## Sample data -/

/-- The conversion formula of the OpenCV manual for 8 bit images (`V` the
largest channel, `S = 255 (V - min) / V`, `H` half the hue angle in degrees),
evaluated in natural numbers with fractions dropped.  It stands for
`CV_BGR2HSV` in the worked examples. -/
def sampleBgr2hsv (c : Pixel3) : Pixel3 :=
  let b := c.1
  let g := c.2.1
  let r := c.2.2
  let v := max b (max g r)
  let diff := v - min b (min g r)
  let s := if v = 0 then 0 else 255 * diff / v
  let h :=
    if diff = 0 then 0
    else if v = r then
      (if b ≤ g then 30 * (g - b) / diff else 180 - 30 * (b - g) / diff)
    else if v = g then
      (if r ≤ b then 60 + 30 * (b - r) / diff else 60 - 30 * (r - b) / diff)
    else
      (if g ≤ r then 120 + 30 * (r - g) / diff else 120 - 30 * (g - r) / diff)
  (h, s, v)

/-- A rasteriser that colours the pixel at the first end point only.  It
stands for `cvLine` in the worked examples. -/
def sampleLine (img : IplImage Pixel3) (pt1 _pt2 : CvPoint) (color : CvScalar) (_thickness : Nat) :
    IplImage Pixel3 :=
  { img with pix := fun x y => if (x : Int) = pt1.1 ∧ (y : Int) = pt1.2 then color else img.pix x y }

/-- The sample instance of the open part of OpenCV. -/
def sampleCv : OpenCV := ⟨sampleBgr2hsv, sampleLine⟩

/-- A frame of the given size with every pixel of the colour `c`. -/
def uniformFrame (width height : Nat) (c : Pixel3) : IplImage Pixel3 :=
  ⟨width, height, fun _ _ => c⟩

/-- Pure yellow in BGR order. -/
def yellow : Pixel3 := (0, 255, 255)

/-- Pure blue in BGR order. -/
def blue : Pixel3 := (255, 0, 0)

/-- A 4 by 3 mask with three "in range" pixels. -/
def smallMask : IplImage Nat :=
  ⟨4, 3, fun x y => if x = y then 255 else 0⟩

/-- A 20 by 20 mask whose "in range" pixels are those on or under the
diagonal, 210 in number. -/
def triangleMask : IplImage Nat :=
  ⟨20, 20, fun x y => if x ≤ y then 255 else 0⟩

/-- A 640 by 480 mask whose "in range" pixels are the 20 by 20 block with
corners (100, 50) and (119, 69). -/
def blockMask : IplImage Nat :=
  ⟨640, 480, fun x y => if (100 ≤ x ∧ x ≤ 119) ∧ (50 ≤ y ∧ y ≤ 69) then 255 else 0⟩

/-- A 2 by 100 mask with every pixel "in range": a blob of 200 pixels against
the left border of the image. -/
def borderMask : IplImage Nat := ⟨2, 100, fun _ _ => 255⟩

/-- A 640 by 480 camera frame, blue except for a yellow strip of 2 by 100
pixels in its top right corner, which the mirroring brings against the left
border. -/
def borderFrame : IplImage Pixel3 :=
  ⟨640, 480, fun x y => if 638 ≤ x ∧ y < 100 then yellow else blue⟩

/-- A key stream: no key during the first two polls, then the escape key. -/
def sampleKeys (i : Nat) : Int := if i < 2 then -1 else 27

/-- A frame source that yields two yellow frames and then no frame. -/
def sampleFrames (i : Nat) : Option (IplImage Pixel3) :=
  if i < 2 then some (uniformFrame 2 2 yellow) else none

/-! ## Lemmas on the moments -/

theorem rowMoments_fst (row : Nat → Nat) (n : Nat) :
    (rowMoments true row n).1 = ∑ x ∈ Finset.range n, (if row x ≠ 0 then 1 else 0) := by
  induction n with
  | zero => simp [rowMoments]
  | succ n ih => simp [rowMoments, Finset.sum_range_succ, ih, pixelWeight]

theorem rowMoments_snd (row : Nat → Nat) (n : Nat) :
    (rowMoments true row n).2 = ∑ x ∈ Finset.range n, (if row x ≠ 0 then x else 0) := by
  induction n with
  | zero => simp [rowMoments]
  | succ n ih => simp [rowMoments, Finset.sum_range_succ, ih, pixelWeight]

theorem momentsUpTo_m00 (image : IplImage Nat) (n : Nat) :
    (momentsUpTo true image n).m00 =
      ∑ y ∈ Finset.range n, ∑ x ∈ Finset.range image.width,
        (if image.pix x y ≠ 0 then 1 else 0) := by
  induction n with
  | zero => simp [momentsUpTo]
  | succ n ih => simp [momentsUpTo, Finset.sum_range_succ, ih, rowMoments_fst]

theorem momentsUpTo_m10 (image : IplImage Nat) (n : Nat) :
    (momentsUpTo true image n).m10 =
      ∑ y ∈ Finset.range n, ∑ x ∈ Finset.range image.width,
        (if image.pix x y ≠ 0 then x else 0) := by
  induction n with
  | zero => simp [momentsUpTo]
  | succ n ih => simp [momentsUpTo, Finset.sum_range_succ, ih, rowMoments_snd]

theorem momentsUpTo_m01 (image : IplImage Nat) (n : Nat) :
    (momentsUpTo true image n).m01 =
      ∑ y ∈ Finset.range n, ∑ x ∈ Finset.range image.width,
        (if image.pix x y ≠ 0 then y else 0) := by
  induction n with
  | zero => simp [momentsUpTo]
  | succ n ih =>
    simp only [momentsUpTo, Finset.sum_range_succ, ih, rowMoments_fst, Finset.mul_sum]
    congr 1
    apply Finset.sum_congr rfl
    intro x _
    split <;> simp

theorem sum_inRangePixels (image : IplImage Nat) (f : Nat × Nat → Nat) :
    ∑ q ∈ inRangePixels image, f q =
      ∑ y ∈ Finset.range image.height, ∑ x ∈ Finset.range image.width,
        (if image.pix x y ≠ 0 then f (x, y) else 0) := by
  unfold inRangePixels
  rw [Finset.sum_filter, Finset.sum_product_right]

theorem cvMoments_m00 (image : IplImage Nat) :
    (cvMoments image true).m00 = specM00 image := by
  unfold cvMoments specM00
  rw [momentsUpTo_m00, Finset.card_eq_sum_ones, sum_inRangePixels]

theorem cvMoments_m10 (image : IplImage Nat) :
    (cvMoments image true).m10 = specM10 image := by
  unfold cvMoments specM10
  rw [momentsUpTo_m10, sum_inRangePixels]

theorem cvMoments_m01 (image : IplImage Nat) :
    (cvMoments image true).m01 = specM01 image := by
  unfold cvMoments specM01
  rw [momentsUpTo_m01, sum_inRangePixels]

/-! ## Rectangles -/

theorem sum_Icc_id_mul_two (a n : Nat) :
    (∑ x ∈ Finset.Icc a (a + n), x) * 2 = (a + (a + n)) * (n + 1) := by
  induction n with
  | zero => simp; ring
  | succ n ih =>
    rw [← Nat.add_assoc, Finset.sum_Icc_succ_top (by omega), Nat.add_mul, ih]
    ring

theorem half_div (s w h S : Nat) (hw : 0 < w) (hh : 0 < h) (hS : S * 2 = s * w) :
    (h * S) / (w * h) = s / 2 := by
  have h1 : s / 2 * 2 ≤ s := Nat.div_mul_le_self s 2
  have h2 : s < (s / 2 + 1) * 2 := by omega
  have hpos : 0 < w * h := Nat.mul_pos hw hh
  have e : h * S * 2 = s * (w * h) := by rw [Nat.mul_assoc, hS]; ring
  apply Nat.div_eq_of_lt_le
  · have : s / 2 * (w * h) * 2 ≤ h * S * 2 := by
      rw [e]
      calc s / 2 * (w * h) * 2 = s / 2 * 2 * (w * h) := by ring
        _ ≤ s * (w * h) := Nat.mul_le_mul_right _ h1
    omega
  · have : h * S * 2 < (s / 2 + 1) * (w * h) * 2 := by
      rw [e]
      calc s * (w * h) < (s / 2 + 1) * 2 * (w * h) := Nat.mul_lt_mul_of_pos_right h2 hpos
        _ = (s / 2 + 1) * (w * h) * 2 := by ring
    omega

/-- The "in range" pixels of a mask whose non-zero pixels are the rectangle
`[x0..x1] x [y0..y1]`. -/
theorem inRangePixels_rect (image : IplImage Nat) (x0 x1 y0 y1 : Nat)
    (hx : x1 < image.width) (hy : y1 < image.height)
    (hrect : ∀ x y, x < image.width → y < image.height →
      (image.pix x y ≠ 0 ↔ (x0 ≤ x ∧ x ≤ x1) ∧ (y0 ≤ y ∧ y ≤ y1))) :
    inRangePixels image = Finset.Icc x0 x1 ×ˢ Finset.Icc y0 y1 := by
  ext q
  simp only [inRangePixels, Finset.mem_filter, Finset.mem_product, Finset.mem_range,
    Finset.mem_Icc]
  constructor
  · rintro ⟨⟨h1, h2⟩, h3⟩
    exact (hrect q.1 q.2 h1 h2).1 h3
  · rintro ⟨⟨a, b⟩, c, d⟩
    have h1 : q.1 < image.width := by omega
    have h2 : q.2 < image.height := by omega
    exact ⟨⟨h1, h2⟩, (hrect q.1 q.2 h1 h2).2 ⟨⟨a, b⟩, c, d⟩⟩

theorem rect_moments (image : IplImage Nat) (x0 x1 y0 y1 : Nat)
    (hx0 : x0 ≤ x1) (hy0 : y0 ≤ y1)
    (hx : x1 < image.width) (hy : y1 < image.height)
    (hrect : ∀ x y, x < image.width → y < image.height →
      (image.pix x y ≠ 0 ↔ (x0 ≤ x ∧ x ≤ x1) ∧ (y0 ≤ y ∧ y ≤ y1))) :
    specM00 image = (x1 - x0 + 1) * (y1 - y0 + 1) ∧
    specM10 image / specM00 image = (x0 + x1) / 2 ∧
    specM01 image / specM00 image = (y0 + y1) / 2 := by
  have hS := inRangePixels_rect image x0 x1 y0 y1 hx hy hrect
  have hw : 0 < x1 - x0 + 1 := by omega
  have hh : 0 < y1 - y0 + 1 := by omega
  have hcx : (Finset.Icc x0 x1).card = x1 - x0 + 1 := by simp; omega
  have hcy : (Finset.Icc y0 y1).card = y1 - y0 + 1 := by simp; omega
  have h00 : specM00 image = (x1 - x0 + 1) * (y1 - y0 + 1) := by
    rw [specM00, hS, Finset.card_product, hcx, hcy]
  have h10 : specM10 image = (y1 - y0 + 1) * ∑ x ∈ Finset.Icc x0 x1, x := by
    rw [specM10, hS, Finset.sum_product]
    simp [hcy, Finset.sum_const, Finset.mul_sum, Nat.mul_comm]
  have h01 : specM01 image = (x1 - x0 + 1) * ∑ y ∈ Finset.Icc y0 y1, y := by
    rw [specM01, hS, Finset.sum_product]
    simp [hcx, Finset.sum_const]
  have sx : (∑ x ∈ Finset.Icc x0 x1, x) * 2 = (x0 + x1) * (x1 - x0 + 1) := by
    have := sum_Icc_id_mul_two x0 (x1 - x0)
    rwa [Nat.add_sub_cancel' hx0] at this
  have sy : (∑ y ∈ Finset.Icc y0 y1, y) * 2 = (y0 + y1) * (y1 - y0 + 1) := by
    have := sum_Icc_id_mul_two y0 (y1 - y0)
    rwa [Nat.add_sub_cancel' hy0] at this
  refine ⟨h00, ?_, ?_⟩
  · rw [h00, h10]
    exact half_div _ _ _ _ hw hh sx
  · rw [h00, h01, Nat.mul_comm (x1 - x0 + 1) (y1 - y0 + 1)]
    exact half_div _ _ _ _ hh hw sy

/-! ## Bounds on the barycentre -/

theorem specM10_lt (image : IplImage Nat) (h : 0 < specM00 image) :
    specM10 image < image.width * specM00 image := by
  have hne : (inRangePixels image).Nonempty := Finset.card_pos.1 h
  have := Finset.sum_lt_sum_of_nonempty hne (f := fun q : Nat × Nat => q.1)
    (g := fun _ => image.width) (by
      intro q hq
      simp only [inRangePixels, Finset.mem_filter, Finset.mem_product, Finset.mem_range] at hq
      exact hq.1.1)
  simpa [specM10, specM00, Nat.mul_comm] using this

theorem specM01_lt (image : IplImage Nat) (h : 0 < specM00 image) :
    specM01 image < image.height * specM00 image := by
  have hne : (inRangePixels image).Nonempty := Finset.card_pos.1 h
  have := Finset.sum_lt_sum_of_nonempty hne (f := fun q : Nat × Nat => q.2)
    (g := fun _ => image.height) (by
      intro q hq
      simp only [inRangePixels, Finset.mem_filter, Finset.mem_product, Finset.mem_range] at hq
      exact hq.1.2)
  simpa [specM01, specM00, Nat.mul_comm] using this

theorem estimatePositionAt_eq (areaThreshold : Nat) (image : IplImage Nat) (p : Int × Int) :
    estimatePositionAt areaThreshold image p =
      if areaThreshold ≤ specM00 image then
        (((specM10 image / specM00 image : Nat) : Int),
          ((specM01 image / specM00 image : Nat) : Int))
      else (-1, -1) := by
  simp only [estimatePositionAt, cvMoments_m00, cvMoments_m10, cvMoments_m01, ge_iff_le]

/-! ## The estimation of the position -/

/-- C1: for every mask and every area threshold, when the number of "in
range" pixels of the mask is strictly below the threshold the estimation
yields the "not found" pair (-1, -1), whatever the pixels are and whatever
the two outputs held before; with the threshold of the program this is the
result of `estimatePosition`. -/
theorem estimatePosition_not_found (areaThreshold : Nat) (image : IplImage Nat)
    (p : Int × Int) (h : specM00 image < areaThreshold) :
    estimatePositionAt areaThreshold image p = (-1, -1) ∧
    (areaThreshold = AREA_THRESHOLD → estimatePosition image p = (-1, -1)) := by
  have e : estimatePositionAt areaThreshold image p = (-1, -1) := by
    rw [estimatePositionAt_eq, if_neg (by omega)]
  refine ⟨e, ?_⟩
  intro ht
  rw [estimatePosition, ← ht]
  exact e

theorem estimatePosition_not_found_witness :
    specM00 smallMask < 200 ∧ estimatePosition smallMask (7, 7) = (-1, -1) :=
  ⟨by rw [← cvMoments_m00]; decide,
    (estimatePosition_not_found 200 smallMask (7, 7) (by rw [← cvMoments_m00]; decide)).2 rfl⟩

/-- C2: the area threshold of the program is 200 and, for every mask whose
number m00 of "in range" pixels is at least that threshold (200 itself
included), `estimatePosition` returns the pair of truncated quotients
(m10 / m00, m01 / m00), m10 and m01 being the sums of the x and of the y
coordinates of the "in range" pixels. -/
theorem estimatePosition_centroid (image : IplImage Nat) (p : Int × Int)
    (h : AREA_THRESHOLD ≤ specM00 image) :
    AREA_THRESHOLD = 200 ∧
    estimatePosition image p =
      (((specM10 image / specM00 image : Nat) : Int),
        ((specM01 image / specM00 image : Nat) : Int)) := by
  refine ⟨rfl, ?_⟩
  rw [estimatePosition, estimatePositionAt_eq, if_pos h]

set_option maxRecDepth 8000 in
theorem estimatePosition_centroid_witness :
    specM00 borderMask = 200 ∧ estimatePosition borderMask (7, 7) = (0, 49) ∧
    estimatePosition borderMask (7, 7) =
      (((specM10 borderMask / specM00 borderMask : Nat) : Int),
        ((specM01 borderMask / specM00 borderMask : Nat) : Int)) :=
  ⟨by rw [← cvMoments_m00]; decide, by decide,
    (estimatePosition_centroid borderMask (7, 7) (by rw [← cvMoments_m00]; decide)).2⟩

/-- C3: for every mask whose "in range" pixels are exactly the rectangle
`[x0..x1] x [y0..y1]`, of area at least the area threshold, the position
returned by `estimatePosition` is the pair of the truncated means
((x0 + x1) / 2, (y0 + y1) / 2); it is therefore within 1 pixel (indeed within
half a pixel) of the geometric centre on each axis, and for the block with
corners (100, 50) and (119, 69) it is (109, 59). -/
theorem estimatePosition_rectangle (image : IplImage Nat) (p : Int × Int)
    (x0 x1 y0 y1 : Nat) (hx0 : x0 ≤ x1) (hy0 : y0 ≤ y1)
    (hx : x1 < image.width) (hy : y1 < image.height)
    (hrect : ∀ x y, x < image.width → y < image.height →
      (image.pix x y ≠ 0 ↔ (x0 ≤ x ∧ x ≤ x1) ∧ (y0 ≤ y ∧ y ≤ y1)))
    (harea : AREA_THRESHOLD ≤ (x1 - x0 + 1) * (y1 - y0 + 1)) :
    ∃ cx cy : Nat, estimatePosition image p = ((cx : Int), (cy : Int)) ∧
      cx = (x0 + x1) / 2 ∧ cy = (y0 + y1) / 2 ∧
      |(cx : ℚ) - ((x0 : ℚ) + x1) / 2| ≤ 1 ∧ |(cy : ℚ) - ((y0 : ℚ) + y1) / 2| ≤ 1 ∧
      (x0 = 100 ∧ x1 = 119 ∧ y0 = 50 ∧ y1 = 69 → estimatePosition image p = (109, 59)) := by
  obtain ⟨h00, h10, h01⟩ := rect_moments image x0 x1 y0 y1 hx0 hy0 hx hy hrect
  have hpos : estimatePosition image p = ((((x0 + x1) / 2 : Nat) : Int), (((y0 + y1) / 2 : Nat) : Int)) := by
    rw [estimatePosition, estimatePositionAt_eq, if_pos (by rw [h00]; exact harea), h10, h01]
  have close : ∀ a b : Nat, |(((a + b) / 2 : Nat) : ℚ) - ((a : ℚ) + b) / 2| ≤ 1 := by
    intro a b
    have h1 : (a + b) / 2 * 2 ≤ a + b := Nat.div_mul_le_self _ _
    have h2 : a + b < (a + b) / 2 * 2 + 2 := by omega
    have h1q : ((((a + b) / 2 : Nat) : ℚ)) * 2 ≤ (a : ℚ) + b := by exact_mod_cast h1
    have h2q : (a : ℚ) + b < ((((a + b) / 2 : Nat) : ℚ)) * 2 + 2 := by exact_mod_cast h2
    rw [abs_le]
    constructor <;> linarith
  refine ⟨(x0 + x1) / 2, (y0 + y1) / 2, hpos, rfl, rfl, close x0 x1, close y0 y1, ?_⟩
  rintro ⟨rfl, rfl, rfl, rfl⟩
  rw [hpos]
  rfl

theorem estimatePosition_rectangle_witness :
    ∃ cx cy : Nat, estimatePosition blockMask (7, 7) = ((cx : Int), (cy : Int)) ∧
      cx = (100 + 119) / 2 ∧ cy = (50 + 69) / 2 ∧
      |(cx : ℚ) - (((100 : Nat) : ℚ) + (119 : Nat)) / 2| ≤ 1 ∧
      |(cy : ℚ) - (((50 : Nat) : ℚ) + (69 : Nat)) / 2| ≤ 1 ∧
      (100 = 100 ∧ 119 = 119 ∧ 50 = 50 ∧ 69 = 69 → estimatePosition blockMask (7, 7) = (109, 59)) :=
  estimatePosition_rectangle blockMask (7, 7) 100 119 50 69 (by decide) (by decide)
    (by decide) (by decide)
    (by intro x y _ _; simp [blockMask, and_assoc])
    (by decide)

/-- C10: for every mask, of width W and height H, the pair written by
`estimatePosition` is either (-1, -1) or a pair (x, y) with 0 <= x < W and
0 <= y < H; the pair does not depend on what the two outputs held before the
call. -/
theorem estimatePosition_in_image (image : IplImage Nat) (p : Int × Int) :
    (estimatePosition image p = (-1, -1) ∨
      (0 ≤ (estimatePosition image p).1 ∧ (estimatePosition image p).1 < image.width ∧
        0 ≤ (estimatePosition image p).2 ∧ (estimatePosition image p).2 < image.height)) ∧
    ∀ q : Int × Int, estimatePosition image q = estimatePosition image p := by
  refine ⟨?_, fun q => by rw [estimatePosition, estimatePosition, estimatePositionAt_eq,
    estimatePositionAt_eq]⟩
  rw [estimatePosition, estimatePositionAt_eq]
  by_cases h : AREA_THRESHOLD ≤ specM00 image
  · right
    rw [if_pos h]
    have hpos : 0 < specM00 image := by unfold AREA_THRESHOLD at h; omega
    have hx := (Nat.div_lt_iff_lt_mul hpos).2 (specM10_lt image hpos)
    have hy := (Nat.div_lt_iff_lt_mul hpos).2 (specM01_lt image hpos)
    refine ⟨Int.ofNat_nonneg _, ?_, Int.ofNat_nonneg _, ?_⟩
    · show ((specM10 image / specM00 image : Nat) : Int) < image.width
      exact_mod_cast hx
    · show ((specM01 image / specM00 image : Nat) : Int) < image.height
      exact_mod_cast hy
  · left
    rw [if_neg h]

/-! ## The thresholding -/

theorem inRangeS_iff (v : Pixel3) :
    inRangeS (20, 100, 100) (30, 255, 255) v = true ↔
      (20 ≤ v.1 ∧ v.1 ≤ 30) ∧ (100 ≤ v.2.1 ∧ v.2.1 ≤ 255) ∧ (100 ≤ v.2.2 ∧ v.2.2 ≤ 255) := by
  simp [inRangeS, and_assoc]

theorem applyThreshold_eq (cv : OpenCV) (src : IplImage Pixel3) (dst : IplImage Nat)
    (hw : dst.width = src.width) (hh : dst.height = src.height) :
    applyThreshold cv src dst = some (thresholdOf cv src) := by
  simp [applyThreshold, cvInRangeS, cvCvtColor, thresholdOf, hw, hh]

theorem specM00_zero (mask : IplImage Nat)
    (h : ∀ x y, x < mask.width → y < mask.height → mask.pix x y = 0) :
    specM00 mask = 0 := by
  rw [specM00, Finset.card_eq_zero, inRangePixels, Finset.filter_eq_empty_iff]
  intro q hq
  rw [Finset.mem_product, Finset.mem_range, Finset.mem_range] at hq
  simp [h q.1 q.2 hq.1 hq.2]

/-- C4: for every frame and every mask `dst` of the size of the frame,
`applyThreshold` succeeds and yields a mask of that size in which each pixel
is 255 exactly when the three HSV components of the frame pixel lie in the
closed intervals [20, 30], [100, 255] and [100, 255], and is 0 otherwise; a
pixel equal to the lower bound (20, 100, 100) or to the upper bound
(30, 255, 255) gets 255, and no value other than 0 and 255 occurs. -/
theorem applyThreshold_classifies (cv : OpenCV) (src : IplImage Pixel3) (dst : IplImage Nat)
    (hw : dst.width = src.width) (hh : dst.height = src.height) :
    ∃ mask, applyThreshold cv src dst = some mask ∧
      mask.width = src.width ∧ mask.height = src.height ∧
      ∀ x y, x < src.width → y < src.height →
        (mask.pix x y = 255 ↔
          (20 ≤ (cv.bgr2hsv (src.pix x y)).1 ∧ (cv.bgr2hsv (src.pix x y)).1 ≤ 30) ∧
          (100 ≤ (cv.bgr2hsv (src.pix x y)).2.1 ∧ (cv.bgr2hsv (src.pix x y)).2.1 ≤ 255) ∧
          (100 ≤ (cv.bgr2hsv (src.pix x y)).2.2 ∧ (cv.bgr2hsv (src.pix x y)).2.2 ≤ 255)) ∧
        (mask.pix x y = 0 ↔ ¬ mask.pix x y = 255) ∧
        (mask.pix x y = 0 ∨ mask.pix x y = 255) ∧
        (cv.bgr2hsv (src.pix x y) = (20, 100, 100) → mask.pix x y = 255) ∧
        (cv.bgr2hsv (src.pix x y) = (30, 255, 255) → mask.pix x y = 255) := by
  refine ⟨thresholdOf cv src, applyThreshold_eq cv src dst hw hh, rfl, rfl, ?_⟩
  intro x y _ _
  have key := inRangeS_iff (cv.bgr2hsv (src.pix x y))
  simp only [thresholdOf]
  by_cases hin : inRangeS (20, 100, 100) (30, 255, 255) (cv.bgr2hsv (src.pix x y)) = true
  · rw [if_pos hin]
    refine ⟨⟨fun _ => key.1 hin, fun _ => rfl⟩, by simp, Or.inr rfl, fun _ => rfl, fun _ => rfl⟩
  · rw [if_neg hin]
    refine ⟨⟨fun h => absurd h (by decide), fun h => absurd (key.2 h) hin⟩, by simp,
      Or.inl rfl, ?_, ?_⟩
    · intro e
      rw [e] at hin
      exact absurd (by decide) hin
    · intro e
      rw [e] at hin
      exact absurd (by decide) hin

theorem applyThreshold_classifies_witness :
    ∃ mask, applyThreshold sampleCv (uniformFrame 2 2 yellow) (cvCreateImage 2 2 0) = some mask ∧
      mask.pix 1 1 = 255 :=
  (applyThreshold_classifies sampleCv (uniformFrame 2 2 yellow) (cvCreateImage 2 2 0) rfl rfl).elim
    (fun mask h => ⟨mask, h.1, (h.2.2.2 1 1 (by decide) (by decide)).2.2.2.2 (by decide)⟩)

/-- C9: for every frame whose pixels all have one colour, the HSV value of
which lies outside the range (20, 100, 100)-(30, 255, 255), `applyThreshold`
yields a mask that is zero everywhere and `estimatePosition` on that mask
returns (-1, -1); and every mask that is zero everywhere has m00 = 0 and is
given (-1, -1). -/
theorem uniform_frame_not_found (cv : OpenCV) (src : IplImage Pixel3) (dst : IplImage Nat)
    (c : Pixel3) (p : Int × Int)
    (hw : dst.width = src.width) (hh : dst.height = src.height)
    (huni : ∀ x y, x < src.width → y < src.height → src.pix x y = c)
    (hout : ¬ ((20 ≤ (cv.bgr2hsv c).1 ∧ (cv.bgr2hsv c).1 ≤ 30) ∧
      (100 ≤ (cv.bgr2hsv c).2.1 ∧ (cv.bgr2hsv c).2.1 ≤ 255) ∧
      (100 ≤ (cv.bgr2hsv c).2.2 ∧ (cv.bgr2hsv c).2.2 ≤ 255))) :
    (∃ mask, applyThreshold cv src dst = some mask ∧
      mask.width = src.width ∧ mask.height = src.height ∧
      (∀ x y, x < src.width → y < src.height → mask.pix x y = 0) ∧
      estimatePosition mask p = (-1, -1)) ∧
    (∀ mask : IplImage Nat,
      (∀ x y, x < mask.width → y < mask.height → mask.pix x y = 0) →
      (cvMoments mask true).m00 = 0 ∧ estimatePosition mask p = (-1, -1)) := by
  have zero : ∀ mask : IplImage Nat,
      (∀ x y, x < mask.width → y < mask.height → mask.pix x y = 0) →
      (cvMoments mask true).m00 = 0 ∧ estimatePosition mask p = (-1, -1) := by
    intro mask hz
    have h0 := specM00_zero mask hz
    refine ⟨by rw [cvMoments_m00, h0], ?_⟩
    rw [estimatePosition, estimatePositionAt_eq, h0, if_neg (by decide)]
  have hpix : ∀ x y, x < src.width → y < src.height → (thresholdOf cv src).pix x y = 0 := by
    intro x y hx hy
    simp only [thresholdOf, huni x y hx hy]
    rw [if_neg]
    exact fun h => hout ((inRangeS_iff _).1 h)
  exact ⟨⟨thresholdOf cv src, applyThreshold_eq cv src dst hw hh, rfl, rfl, hpix,
    (zero _ hpix).2⟩, zero⟩

theorem uniform_frame_not_found_witness :
    ∃ mask, applyThreshold sampleCv (uniformFrame 3 2 blue) (cvCreateImage 3 2 0) = some mask ∧
      mask.pix 2 1 = 0 ∧ estimatePosition mask (7, 7) = (-1, -1) :=
  (uniform_frame_not_found sampleCv (uniformFrame 3 2 blue) (cvCreateImage 3 2 0) blue (7, 7)
    rfl rfl (fun _ _ _ _ => rfl) (by decide)).1.elim
    (fun mask h => ⟨mask, h.1, h.2.2.2.1 2 1 (by decide) (by decide), h.2.2.2.2⟩)

/-! ## The tracking loop -/

theorem trackBody_eq (cv : OpenCV) (queried : IplImage Pixel3) (pos : Int × Int) :
    trackBody cv queried pos = some (positionOf cv queried, cycleEvents cv queried) := by
  have h := applyThreshold_eq cv (cvFlip queried)
    (cvCreateImage (cvFlip queried).width (cvFlip queried).height 0) rfl rfl
  simp only [trackBody, h]
  by_cases c : (positionOf cv queried).1 > 0 ∧ (positionOf cv queried).2 > 0
  · have c2 : (estimatePosition (thresholdOf cv (cvFlip queried)) pos).1 > 0 ∧
        (estimatePosition (thresholdOf cv (cvFlip queried)) pos).2 > 0 := c
    simp only [cycleEvents, if_pos c, if_pos c2]
    rfl
  · have c2 : ¬ ((estimatePosition (thresholdOf cv (cvFlip queried)) pos).1 > 0 ∧
        (estimatePosition (thresholdOf cv (cvFlip queried)) pos).2 > 0) := c
    simp only [cycleEvents, if_neg c, if_neg c2]
    rfl

theorem traceUpTo_succ_some (cv : OpenCV) (frames : Nat → Option (IplImage Pixel3)) (i : Nat)
    (queried : IplImage Pixel3) (h : frames i = some queried) :
    traceUpTo cv frames (i + 1) = traceUpTo cv frames i ++ cycleEvents cv queried := by
  simp only [traceUpTo, h]

/-- The loop, started at pass `i` with the calls of the passes before it, ends
after the passes `i..n-1`: either the fuel is used up, or pass `n` finds the
stop signal or a missing frame and the function returns. -/
theorem trackLoop_spec (cv : OpenCV) (waitKey : Nat → Int)
    (frames : Nat → Option (IplImage Pixel3)) (fuel : Nat) :
    ∀ (i : Nat) (pos : Int × Int), ∃ n, i ≤ n ∧ n ≤ i + fuel ∧
      (∀ j, i ≤ j → j < n → keepTracking (waitKey j) = true ∧ frames j ≠ none) ∧
      ((n = i + fuel ∧
          trackLoop cv waitKey frames fuel i pos (traceUpTo cv frames i) =
            .running (traceUpTo cv frames n)) ∨
        (n < i + fuel ∧ (keepTracking (waitKey n) = false ∨ frames n = none) ∧
          trackLoop cv waitKey frames fuel i pos (traceUpTo cv frames i) =
            .returned (traceUpTo cv frames n))) := by
  induction fuel with
  | zero =>
    intro i pos
    exact ⟨i, le_refl _, le_refl _, fun j h1 h2 => absurd h2 (by omega), Or.inl ⟨rfl, rfl⟩⟩
  | succ fuel ih =>
    intro i pos
    by_cases hk : keepTracking (waitKey i) = true
    · cases hf : frames i with
      | none =>
        refine ⟨i, le_refl _, by omega, fun j h1 h2 => absurd h2 (by omega),
          Or.inr ⟨by omega, Or.inr hf, ?_⟩⟩
        simp only [trackLoop, hk, hf, if_true]
      | some queried =>
        obtain ⟨n, h1, h2, h3, h4⟩ := ih (i + 1) (positionOf cv queried)
        have step : trackLoop cv waitKey frames (fuel + 1) i pos (traceUpTo cv frames i) =
            trackLoop cv waitKey frames fuel (i + 1) (positionOf cv queried)
              (traceUpTo cv frames (i + 1)) := by
          simp only [trackLoop, hk, hf, if_true, trackBody_eq,
            traceUpTo_succ_some cv frames i queried hf]
        refine ⟨n, by omega, by omega, ?_, ?_⟩
        · intro j hj1 hj2
          by_cases e : j = i
          · subst e
            exact ⟨hk, by rw [hf]; exact Option.some_ne_none _⟩
          · exact h3 j (by omega) hj2
        · rw [step]
          rcases h4 with ⟨e, r⟩ | ⟨e, c, r⟩
          · exact Or.inl ⟨by omega, r⟩
          · exact Or.inr ⟨by omega, c, r⟩
    · have hk2 : keepTracking (waitKey i) = false := by simpa using hk
      refine ⟨i, le_refl _, by omega, fun j h1 h2 => absurd h2 (by omega),
        Or.inr ⟨by omega, Or.inl hk2, ?_⟩⟩
      simp [trackLoop, hk2]

theorem track_spec (cv : OpenCV) (waitKey : Nat → Int)
    (frames : Nat → Option (IplImage Pixel3)) (fuel : Nat) :
    ∃ n, n ≤ fuel ∧
      (∀ j, j < n → keepTracking (waitKey j) = true ∧ frames j ≠ none) ∧
      ((n = fuel ∧ track cv waitKey frames fuel = .running (traceUpTo cv frames n)) ∨
        (n < fuel ∧ (keepTracking (waitKey n) = false ∨ frames n = none) ∧
          track cv waitKey frames fuel = .returned (traceUpTo cv frames n))) := by
  obtain ⟨n, _, h2, h3, h4⟩ := trackLoop_spec cv waitKey frames fuel 0 (-1, -1)
  refine ⟨n, by omega, fun j hj => h3 j (Nat.zero_le _) hj, ?_⟩
  rcases h4 with ⟨e, r⟩ | ⟨e, c, r⟩
  · exact Or.inl ⟨by omega, r⟩
  · exact Or.inr ⟨by omega, c, r⟩

theorem cycleEvents_thresholded (cv : OpenCV) (queried : IplImage Pixel3) :
    (cycleEvents cv queried).filterMap Event.thresholded = [cvFlip queried] := by
  by_cases c : (positionOf cv queried).1 > 0 ∧ (positionOf cv queried).2 > 0
  · simp only [cycleEvents, if_pos c]
    rfl
  · simp only [cycleEvents, if_neg c]
    rfl

theorem cycleEvents_estimated (cv : OpenCV) (queried : IplImage Pixel3) :
    (cycleEvents cv queried).filterMap Event.estimated = [thresholdOf cv (cvFlip queried)] := by
  by_cases c : (positionOf cv queried).1 > 0 ∧ (positionOf cv queried).2 > 0
  · simp only [cycleEvents, if_pos c]
    rfl
  · simp only [cycleEvents, if_neg c]
    rfl

theorem traceUpTo_thresholded (cv : OpenCV) (frames : Nat → Option (IplImage Pixel3)) (n : Nat) :
    (traceUpTo cv frames n).filterMap Event.thresholded =
      (List.range n).filterMap (fun j => (frames j).map cvFlip) := by
  induction n with
  | zero => rfl
  | succ n ih =>
    rw [List.range_succ, List.filterMap_append, ← ih]
    cases hf : frames n with
    | none => simp [traceUpTo, hf]
    | some q => simp [traceUpTo, hf, cycleEvents_thresholded]

theorem traceUpTo_estimated (cv : OpenCV) (frames : Nat → Option (IplImage Pixel3)) (n : Nat) :
    (traceUpTo cv frames n).filterMap Event.estimated =
      (List.range n).filterMap (fun j => (frames j).bind (fun q =>
        applyThreshold cv (cvFlip q) (cvCreateImage q.width q.height 0))) := by
  induction n with
  | zero => rfl
  | succ n ih =>
    rw [List.range_succ, List.filterMap_append, ← ih]
    cases hf : frames n with
    | none => simp [traceUpTo, hf]
    | some q =>
      have h := applyThreshold_eq cv (cvFlip q) (cvCreateImage q.width q.height 0) rfl rfl
      simp [traceUpTo, hf, cycleEvents_estimated, h]

theorem cycleEvents_marker (cv : OpenCV) (queried : IplImage Pixel3) :
    (cycleEvents cv queried).filterMap Event.marker =
      if (positionOf cv queried).1 > 0 ∧ (positionOf cv queried).2 > 0 then
        [(positionOf cv queried, positionOf cv queried)]
      else [] := by
  by_cases c : (positionOf cv queried).1 > 0 ∧ (positionOf cv queried).2 > 0
  · simp only [cycleEvents, if_pos c]
    rfl
  · simp only [cycleEvents, if_neg c]
    rfl

theorem cycleEvents_video (cv : OpenCV) (queried : IplImage Pixel3)
    (c : ¬ ((positionOf cv queried).1 > 0 ∧ (positionOf cv queried).2 > 0)) :
    (cycleEvents cv queried).filterMap Event.video = [cvFlip queried] := by
  simp only [cycleEvents, if_neg c]
  rfl

theorem filterMap_range_some {β : Type} (n : Nat) (g : Nat → Option β) (h : Nat → β)
    (hh : ∀ j, j < n → g j = some (h j)) :
    (List.range n).filterMap g = (List.range n).map h := by
  induction n with
  | zero => rfl
  | succ n ih =>
    rw [List.range_succ, List.filterMap_append, List.map_append,
      ih (fun j hj => hh j (by omega))]
    simp [hh n (by omega)]

theorem borderFrame_position (cv : OpenCV)
    (hyellow : cv.bgr2hsv yellow = (30, 255, 255))
    (hblue : cv.bgr2hsv blue = (120, 255, 255)) :
    positionOf cv borderFrame = (0, 49) := by
  have hrect : ∀ x y, x < (thresholdOf cv (cvFlip borderFrame)).width →
      y < (thresholdOf cv (cvFlip borderFrame)).height →
      ((thresholdOf cv (cvFlip borderFrame)).pix x y ≠ 0 ↔
        (0 ≤ x ∧ x ≤ 1) ∧ (0 ≤ y ∧ y ≤ 99)) := by
    intro x y hx hy
    have hx2 : x < 640 := hx
    simp only [thresholdOf, cvFlip, borderFrame]
    by_cases c : 638 ≤ 640 - 1 - x ∧ y < 100
    · have e : (if 638 ≤ 640 - 1 - x ∧ y < 100 then yellow else blue) = yellow := if_pos c
      simp only [e, hyellow]
      constructor
      · intro _
        omega
      · intro _
        decide
    · have e : (if 638 ≤ 640 - 1 - x ∧ y < 100 then yellow else blue) = blue := if_neg c
      simp only [e, hblue]
      constructor
      · intro h
        exact absurd (by decide) h
      · intro _
        omega
  obtain ⟨h00, h10, h01⟩ := rect_moments (thresholdOf cv (cvFlip borderFrame)) 0 1 0 99
    (by decide) (by decide) (show 1 < 640 by decide) (show 99 < 480 by decide) hrect
  rw [positionOf, estimatePosition, estimatePositionAt_eq, h10, h01, h00, if_pos (by decide)]
  rfl

/-- C5, at a frame where it fails: for every colour conversion that sends pure
yellow to the HSV triple (30, 255, 255) and pure blue to (120, 255, 255), as
the conversion of OpenCV does, a pass of the loop on a 640 by 480 frame with
a yellow strip of 2 by 100 pixels against the border computes the position
(0, 49), a pair of non-negative coordinates that is not (-1, -1), and makes
no call of `cvLine`: the frame shown is the mirrored frame without marker. -/
theorem marker_missing_on_border (cv : OpenCV) (pos : Int × Int)
    (hyellow : cv.bgr2hsv yellow = (30, 255, 255))
    (hblue : cv.bgr2hsv blue = (120, 255, 255)) :
    ∃ events, trackBody cv borderFrame pos = some ((0, 49), events) ∧
      events.filterMap Event.marker = [] ∧
      events.filterMap Event.video = [cvFlip borderFrame] := by
  have hpos := borderFrame_position cv hyellow hblue
  refine ⟨cycleEvents cv borderFrame, ?_, ?_, ?_⟩
  · rw [trackBody_eq, hpos]
  · rw [cycleEvents_marker, hpos]
    rfl
  · exact cycleEvents_video _ _ (by rw [hpos]; decide)

theorem marker_missing_on_border_witness :
    sampleCv.bgr2hsv yellow = (30, 255, 255) ∧ sampleCv.bgr2hsv blue = (120, 255, 255) ∧
    ∃ events, trackBody sampleCv borderFrame (-1, -1) = some ((0, 49), events) ∧
      events.filterMap Event.marker = [] ∧
      events.filterMap Event.video = [cvFlip borderFrame] :=
  ⟨by decide, by decide, marker_missing_on_border sampleCv (-1, -1) (by decide) (by decide)⟩

/-- C6: in every pass of the loop, when `estimatePosition` returns (-1, -1)
for the mask of the current frame, the pass makes no call of `cvLine` and the
frame given to the video window is the mirrored frame, without marker. -/
theorem no_marker_when_not_found (cv : OpenCV) (queried : IplImage Pixel3) (pos : Int × Int)
    (mask : IplImage Nat)
    (hmask : applyThreshold cv (cvFlip queried)
      (cvCreateImage (cvFlip queried).width (cvFlip queried).height 0) = some mask)
    (hnot : estimatePosition mask pos = (-1, -1)) :
    ∃ events, trackBody cv queried pos = some ((-1, -1), events) ∧
      events.filterMap Event.marker = [] ∧
      events.filterMap Event.video = [cvFlip queried] := by
  have h := applyThreshold_eq cv (cvFlip queried)
    (cvCreateImage (cvFlip queried).width (cvFlip queried).height 0) rfl rfl
  rw [h] at hmask
  have hm : thresholdOf cv (cvFlip queried) = mask := Option.some.inj hmask
  have hpos : positionOf cv queried = (-1, -1) := by
    rw [positionOf, hm]
    exact hnot
  refine ⟨cycleEvents cv queried, ?_, ?_, ?_⟩
  · rw [trackBody_eq, hpos]
  · rw [cycleEvents_marker, hpos]
    rfl
  · exact cycleEvents_video _ _ (by rw [hpos]; decide)

theorem no_marker_when_not_found_witness :
    ∃ events, trackBody sampleCv (uniformFrame 3 2 blue) (7, 7) = some ((-1, -1), events) ∧
      events.filterMap Event.marker = [] ∧
      events.filterMap Event.video = [cvFlip (uniformFrame 3 2 blue)] :=
  no_marker_when_not_found sampleCv (uniformFrame 3 2 blue) (7, 7)
    (thresholdOf sampleCv (cvFlip (uniformFrame 3 2 blue)))
    (applyThreshold_eq _ _ _ rfl rfl) (by decide)

/-- C7: for every N and every frame source whose first N answers are frames,
when `keepTracking` answers true on its first N polls and false on the next
one, `track` returns (given fuel for more than N passes) after having called
`applyThreshold` exactly N times, on the mirror images of the first N frames
in their order, and `estimatePosition` exactly N times, on the masks that
`applyThreshold` computed for them. -/
theorem track_runs_until_stop (cv : OpenCV) (waitKey : Nat → Int)
    (frames : Nat → Option (IplImage Pixel3)) (f : Nat → IplImage Pixel3) (N fuel : Nat)
    (hframes : ∀ i, i < N → frames i = some (f i))
    (hkeys : ∀ i, i < N → keepTracking (waitKey i) = true)
    (hstop : keepTracking (waitKey N) = false)
    (hfuel : N < fuel) :
    ∃ trace, track cv waitKey frames fuel = .returned trace ∧
      trace.filterMap Event.thresholded = (List.range N).map (fun i => cvFlip (f i)) ∧
      (trace.filterMap Event.estimated).map some =
        (List.range N).map (fun i =>
          applyThreshold cv (cvFlip (f i)) (cvCreateImage (f i).width (f i).height 0)) ∧
      (trace.filterMap Event.thresholded).length = N ∧
      (trace.filterMap Event.estimated).length = N := by
  obtain ⟨n, _, h3, h4⟩ := track_spec cv waitKey frames fuel
  have hn : n = N := by
    rcases Nat.lt_trichotomy n N with lt | eq | gt
    · rcases h4 with ⟨e, _⟩ | ⟨_, c, _⟩
      · omega
      · rcases c with c | c
        · rw [hkeys n lt] at c
          exact absurd c (by decide)
        · rw [hframes n lt] at c
          exact absurd c (Option.some_ne_none _)
    · exact eq
    · have := (h3 N gt).1
      rw [hstop] at this
      exact absurd this (by decide)
  subst hn
  have hret : track cv waitKey frames fuel = .returned (traceUpTo cv frames n) := by
    rcases h4 with ⟨e, _⟩ | ⟨_, _, r⟩
    · omega
    · exact r
  have ht : (traceUpTo cv frames n).filterMap Event.thresholded =
      (List.range n).map (fun i => cvFlip (f i)) := by
    rw [traceUpTo_thresholded]
    exact filterMap_range_some n _ _ (fun j hj => by rw [hframes j hj]; rfl)
  have he : (traceUpTo cv frames n).filterMap Event.estimated =
      (List.range n).map (fun i => thresholdOf cv (cvFlip (f i))) := by
    rw [traceUpTo_estimated]
    exact filterMap_range_some n _ _ (fun j hj => by
      rw [hframes j hj]
      exact applyThreshold_eq cv (cvFlip (f j)) _ rfl rfl)
  refine ⟨traceUpTo cv frames n, hret, ht, ?_, ?_, ?_⟩
  · rw [he, List.map_map]
    apply List.map_congr_left
    intro i _
    exact (applyThreshold_eq cv (cvFlip (f i)) _ rfl rfl).symm
  · rw [ht, List.length_map, List.length_range]
  · rw [he, List.length_map, List.length_range]

theorem track_runs_until_stop_witness :
    ∃ trace, track sampleCv sampleKeys sampleFrames 3 = .returned trace ∧
      (trace.filterMap Event.thresholded).length = 2 ∧
      (trace.filterMap Event.estimated).length = 2 :=
  (track_runs_until_stop sampleCv sampleKeys sampleFrames (fun _ => uniformFrame 2 2 yellow) 2 3
    (by intro i hi; simp [sampleFrames, hi]) (by intro i hi; simp [sampleKeys, hi, keepTracking])
    (by decide) (by decide)).elim
    (fun trace h => ⟨trace, h.1, h.2.2.2.1, h.2.2.2.2⟩)

/-- C8: for every key stream and every sequence of answers of the frame
source in which answer `k` is "no frame", the frames that `track` thresholds
and estimates are those of the passes before some pass `n <= k`, so that no
answer at or after the missing one is ever used; with fuel for more than `k`
passes `track` returns; and when the first answer is "no frame" it returns
without any call. -/
theorem track_stops_at_missing_frame (cv : OpenCV) (waitKey : Nat → Int)
    (frames : Nat → Option (IplImage Pixel3)) (k fuel : Nat) (hnone : frames k = none) :
    (∃ n, n ≤ k ∧
      (track cv waitKey frames fuel).trace.filterMap Event.thresholded =
        (List.range n).filterMap (fun j => (frames j).map cvFlip) ∧
      (track cv waitKey frames fuel).trace.filterMap Event.estimated =
        (List.range n).filterMap (fun j => (frames j).bind (fun q =>
          applyThreshold cv (cvFlip q) (cvCreateImage q.width q.height 0)))) ∧
    ((track cv waitKey frames fuel).trace.filterMap Event.thresholded).length ≤ k ∧
    ((track cv waitKey frames fuel).trace.filterMap Event.estimated).length ≤ k ∧
    (k < fuel → ∃ trace, track cv waitKey frames fuel = .returned trace) ∧
    (k = 0 → 0 < fuel → track cv waitKey frames fuel = .returned []) := by
  obtain ⟨n, _, h3, h4⟩ := track_spec cv waitKey frames fuel
  have hnk : n ≤ k := by
    by_contra hlt
    exact (h3 k (by omega)).2 hnone
  have htrace : (track cv waitKey frames fuel).trace = traceUpTo cv frames n := by
    rcases h4 with ⟨_, r⟩ | ⟨_, _, r⟩ <;> rw [r] <;> rfl
  have ht := traceUpTo_thresholded cv frames n
  have he := traceUpTo_estimated cv frames n
  refine ⟨⟨n, hnk, by rw [htrace, ht], by rw [htrace, he]⟩, ?_, ?_, ?_, ?_⟩
  · rw [htrace, ht]
    exact le_trans (List.length_filterMap_le _ _) (by rw [List.length_range]; exact hnk)
  · rw [htrace, he]
    exact le_trans (List.length_filterMap_le _ _) (by rw [List.length_range]; exact hnk)
  · intro hk
    rcases h4 with ⟨e, _⟩ | ⟨_, _, r⟩
    · omega
    · exact ⟨_, r⟩
  · intro hk0 hfuel
    have hn0 : n = 0 := by omega
    rcases h4 with ⟨e, _⟩ | ⟨_, _, r⟩
    · omega
    · rw [r, hn0]
      rfl

theorem track_stops_at_missing_frame_witness :
    sampleFrames 2 = none ∧
    ((track sampleCv (fun _ => -1) sampleFrames 5).trace.filterMap Event.thresholded).length ≤ 2 ∧
    ∃ trace, track sampleCv (fun _ => -1) sampleFrames 5 = .returned trace :=
  ⟨rfl, (track_stops_at_missing_frame sampleCv (fun _ => -1) sampleFrames 2 5 rfl).2.1,
    (track_stops_at_missing_frame sampleCv (fun _ => -1) sampleFrames 2 5 rfl).2.2.2.1
      (by decide)⟩

end ColorTracking
